import Mathlib

/-!
Shallow embedding of the hybrid retrieval layer of the AskDocs backend
(`src/backend/app/core/qdrant.py`, class `Qdrant`), together with proofs of
the specified properties.

The remote Qdrant backend is modelled as an explicit state (`QState`): a map
from collection name to a collection holding its vector-schema configuration
and its stored points.  Backend calls that can fail are modelled with
`Except`; the possibility of a transient backend failure during a lookup, and
of a creation failure, are threaded as explicit boolean fault flags.  The
similarity ranking performed by the backend is abstracted as an oracle
function `rank`, constrained only to return points drawn from its input (the
fused dense/sparse scoring itself is a backend capability, not code of this
layer).  The `cachetools.TTLCache(maxsize=100, ttl=3600)` used for vector
store handles is modelled as a most-recently-used-first association list with
per-entry insertion timestamps.
-/

namespace AskDocs

/-- A metadata map, modelling a Python `dict[str, str]`-like mapping as an
insertion-ordered association list with unique first occurrence winning on
lookup. -/
abbrev Meta := List (String × String)

/-- Lookup in a metadata map: first entry with the given key. -/
def metaGet (m : Meta) (k : String) : Option String :=
  (m.find? (fun p => p.1 = k)).map (fun p => p.2)

/-- Python `dict` assignment `m[k] = v`: replace the value in place if the key
is present, otherwise append the new binding at the end. -/
def metaSet (m : Meta) (k v : String) : Meta :=
  if m.any (fun p => p.1 = k) then
    m.map (fun p => if p.1 = k then (k, v) else p)
  else m ++ [(k, v)]

/-- Split a character list at every `/`, keeping empty components. -/
def splitOnSlash : List Char → List (List Char)
  | [] => [[]]
  | c :: rest =>
    if c = '/' then [] :: splitOnSlash rest
    else
      match splitOnSlash rest with
      | [] => [[c]]
      | h :: t => (c :: h) :: t

/-- `pathlib.Path(p).name`: the last nonempty path component (so trailing
slashes are ignored, as `pathlib` normalizes them away). -/
def baseName (p : String) : String :=
  ⟨((splitOnSlash p.toList).filter (fun s => s ≠ [])).getLastD []⟩

/-- A `langchain` `Document`: page content plus a metadata map.  The same
shape serves as the stored point in a collection (vectors are abstracted
away; a stored point keeps its text and full metadata map). -/
structure Document where
  pageContent : String
  metadata : Meta
deriving DecidableEq, Repr

/-- The metadata merge performed in `add_document`: copy the chunk's
metadata, then `update` it with `source = basename(file_path)` and
`user_id = collection_name` (dict-update order, injected keys win). -/
def injectMetadata (m : Meta) (filePath collectionName : String) : Meta :=
  metaSet (metaSet m "source" (baseName filePath)) "user_id" collectionName

/-- The per-chunk document constructed by `add_document`. -/
def enrichChunk (chunk : Document) (filePath collectionName : String) : Document :=
  { pageContent := chunk.pageContent
    metadata := injectMetadata chunk.metadata filePath collectionName }

/-- `qdrant_client.models.Distance` (the variants used by this code). -/
inductive Distance
  | cosine
  | euclid
  | dot
deriving DecidableEq, Repr

/-- `models.VectorParams`. -/
structure VectorParams where
  size : Nat
  distance : Distance
deriving DecidableEq, Repr

/-- `models.SparseIndexParams`. -/
structure SparseIndexParams where
  onDisk : Bool
deriving DecidableEq, Repr

/-- `models.SparseVectorParams`. -/
structure SparseVectorParams where
  index : SparseIndexParams
deriving DecidableEq, Repr

/-- The configuration a collection is created with. -/
structure CollectionConfig where
  vectorsConfig : List (String × VectorParams)
  sparseVectorsConfig : List (String × SparseVectorParams)
  onDiskPayload : Bool
deriving DecidableEq, Repr

/-- A backend-side collection: its creation-time configuration and its
stored points. -/
structure Collection where
  config : CollectionConfig
  points : List Document
deriving DecidableEq, Repr

/-- The remote backend state: named collections. -/
structure QState where
  collections : List (String × Collection)
deriving DecidableEq, Repr

/-- Backend lookup of a collection by name. -/
def QState.getColl (st : QState) (name : String) : Option Collection :=
  (st.collections.find? (fun p => p.1 = name)).map (fun p => p.2)

/-- The points currently stored in a named collection (empty if absent). -/
def collPoints (st : QState) (name : String) : List Document :=
  ((st.getColl name).map Collection.points).getD []

/-- Backend errors distinguishable in this model. -/
inductive QErr
  | notFound
  | transient
  | createFailed
deriving DecidableEq, Repr

/-- `client.get_collection(name)`: fails with `notFound` when the collection
is absent; the `transientFail` fault flag models any other lookup failure
(backend unreachable, timeout, ...), which the caller cannot distinguish. -/
def getCollection (st : QState) (name : String) (transientFail : Bool) :
    Except QErr Collection :=
  if transientFail then .error .transient
  else
    match st.getColl name with
    | some c => .ok c
    | none => .error .notFound

/-- The fixed creation-time schema passed to `client.create_collection`:
one dense space "dense" (size 384, cosine), one sparse space "sparse"
(sparse index in memory), payload on disk. -/
def fixedConfig : CollectionConfig :=
  { vectorsConfig := [("dense", { size := 384, distance := Distance.cosine })]
    sparseVectorsConfig := [("sparse", { index := { onDisk := false } })]
    onDiskPayload := true }

/-- `client.create_collection(...)` with the fixed schema: fails if the
backend rejects the creation (`createFail` fault flag, also covering the
already-exists rejection). -/
def createCollection (st : QState) (name : String) (createFail : Bool) :
    Except QErr QState :=
  if createFail ∨ (st.getColl name).isSome then .error .createFailed
  else .ok { collections := st.collections ++ [(name, { config := fixedConfig, points := [] })] }

/-- `Qdrant._ensure_collection`: try the lookup; on ANY failure (the bare
`except:`) attempt creation. -/
def ensureCollection (st : QState) (name : String) (transientFail createFail : Bool) :
    Except QErr QState :=
  match getCollection st name transientFail with
  | .ok _ => .ok st
  | .error _ => createCollection st name createFail

/-! ## Payload filters -/

/-- `models.MatchValue` / `models.MatchAny`. -/
inductive MatchCond
  | value (v : String)
  | anyOf (vs : List String)
deriving DecidableEq, Repr

/-- `models.FieldCondition`. -/
structure FieldCondition where
  key : String
  matchCond : MatchCond
deriving DecidableEq, Repr

/-- `models.Filter` with a `must` clause, the only shape this code builds. -/
structure QFilter where
  must : List FieldCondition
deriving DecidableEq, Repr

/-- Strip a prefix from a character list, returning the remainder if the
prefix matches. -/
def dropPrefixList : List Char → List Char → Option (List Char)
  | [], cs => some cs
  | _ :: _, [] => none
  | p :: ps, c :: cs => if c = p then dropPrefixList ps cs else none

/-- Payload access on a stored point.  Points written by
`QdrantVectorStore.add_documents` carry payload
`\x7b page_content, metadata \x7d`, so a dotted key `metadata.<k>` reads key
`<k>` of the point's metadata map. -/
def pointField (p : Document) (key : String) : Option String :=
  if key = "page_content" then some p.pageContent
  else
    match dropPrefixList "metadata.".toList key.toList with
    | some ks => metaGet p.metadata (String.mk ks)
    | none => none

/-- Match-condition evaluation: `MatchValue` is equality, `MatchAny` is
membership in the given list. -/
def evalMatch (c : MatchCond) (v : String) : Bool :=
  match c with
  | .value w => v = w
  | .anyOf vs => vs.contains v

/-- A field condition holds when the key resolves on the point's payload and
the resolved value matches; an unresolvable key matches nothing. -/
def evalFieldCondition (fc : FieldCondition) (p : Document) : Bool :=
  match pointField p fc.key with
  | some v => evalMatch fc.matchCond v
  | none => false

/-- A `must` filter holds when every condition holds. -/
def evalFilter (f : QFilter) (p : Document) : Bool :=
  f.must.all (fun fc => evalFieldCondition fc p)

/-- The filter built by `delete_document`: `metadata.source == doc_name`. -/
def deleteFilter (docName : String) : QFilter :=
  { must := [{ key := "metadata.source", matchCond := .value docName }] }

/-- The filter built by `search`: `metadata.source ∈ documents`. -/
def searchFilter (documents : List String) : QFilter :=
  { must := [{ key := "metadata.source", matchCond := .anyOf documents }] }

/-- An in-place update of the named collection on the backend (the shape
shared by point deletion and point upsert); collections with other names are
untouched. -/
def updateColl (st : QState) (name : String) (g : Collection → Collection) : QState :=
  { collections := st.collections.map (fun pr =>
      if pr.1 = name then (pr.1, g pr.2) else pr) }

/-- `client.delete` with a `FilterSelector`: drop every matching point from
the named collection. -/
def deletePoints (st : QState) (name : String) (f : QFilter) : QState :=
  updateColl st name (fun c =>
    { c with points := c.points.filter (fun pt => ¬ evalFilter f pt) })

/-- `Qdrant.delete_document`. -/
def deleteDocument (st : QState) (docName collectionName : String) : QState :=
  deletePoints st collectionName (deleteFilter docName)

/-! ## Vector store handles and the TTL cache -/

/-- `langchain_qdrant.RetrievalMode`. -/
inductive RetrievalMode
  | dense
  | sparse
  | hybrid
deriving DecidableEq, Repr

/-- A `QdrantVectorStore` handle as configured by `_get_vector_store`. -/
structure VectorStoreHandle where
  collectionName : String
  embeddingModel : String
  sparseEmbeddingModel : String
  retrievalMode : RetrievalMode
  vectorName : String
  sparseVectorName : String
deriving DecidableEq, Repr

/-- The dense embedding model bound in `Qdrant.__init__`. -/
def denseModelName : String := "sentence-transformers/all-MiniLM-L6-v2"

/-- The sparse embedding model bound in `Qdrant.__init__`. -/
def sparseModelName : String := "Qdrant/bm25"

/-- The `QdrantVectorStore(...)` construction in `_get_vector_store`. -/
def mkVectorStore (collectionName : String) : VectorStoreHandle :=
  { collectionName := collectionName
    embeddingModel := denseModelName
    sparseEmbeddingModel := sparseModelName
    retrievalMode := .hybrid
    vectorName := "dense"
    sparseVectorName := "sparse" }

/-- One entry of the TTL cache: key, value, and insertion time (seconds). -/
structure CacheEntry where
  key : String
  value : VectorStoreHandle
  insertTime : Nat
deriving DecidableEq, Repr

/-- `cachetools.TTLCache`: entries kept most-recently-used first, each
stamped with its insertion time. -/
structure TTLCache where
  maxsize : Nat
  ttl : Nat
  entries : List CacheEntry
deriving DecidableEq, Repr

/-- An entry is expired once more than `ttl` seconds have passed since its
insertion. -/
def CacheEntry.expiredAt (e : CacheEntry) (ttl now : Nat) : Bool :=
  e.insertTime + ttl < now

/-- `key in cache` followed by `cache[key]`: the stored value, provided the
entry exists and is unexpired. -/
def TTLCache.lookupLive (c : TTLCache) (now : Nat) (k : String) :
    Option VectorStoreHandle :=
  match c.entries.find? (fun e => e.key = k) with
  | some e => if e.expiredAt c.ttl now then none else some e.value
  | none => none

/-- LRU bookkeeping on a cache hit: move the accessed entry to the
most-recently-used position. -/
def TTLCache.touch (c : TTLCache) (k : String) : TTLCache :=
  match c.entries.find? (fun e => e.key = k) with
  | some e => { c with entries := e :: c.entries.filter (fun x => x.key ≠ k) }
  | none => c

/-- Remove every expired entry. -/
def TTLCache.expire (c : TTLCache) (now : Nat) : TTLCache :=
  { c with entries := c.entries.filter (fun e => ¬ e.expiredAt c.ttl now) }

/-- `cache[k] = v`: first drop expired entries, then evict
least-recently-used entries until the new entry fits within `maxsize`, then
insert at the most-recently-used position with the current time. -/
def TTLCache.insert (c : TTLCache) (now : Nat) (k : String) (v : VectorStoreHandle) :
    TTLCache :=
  let live := (c.expire now).entries
  { c with entries := { key := k, value := v, insertTime := now } :: live.take (c.maxsize - 1) }

/-- The cache constructed in `Qdrant.__init__`:
`TTLCache(maxsize=100, ttl=3600)`. -/
def initCache : TTLCache :=
  { maxsize := 100, ttl := 3600, entries := [] }

/-- `Qdrant._get_vector_store`: return the cached handle if present and
unexpired, otherwise construct a new handle and insert it. -/
def getVectorStore (c : TTLCache) (now : Nat) (collectionName : String) :
    VectorStoreHandle × TTLCache :=
  match c.lookupLive now collectionName with
  | some vs => (vs, c.touch collectionName)
  | none =>
    let vs := mkVectorStore collectionName
    (vs, c.insert now collectionName vs)

/-! ## Ingestion and search -/

/-- `vector_store.add_documents`: append one stored point per document to the
named collection. -/
def upsertPoints (st : QState) (name : String) (docs : List Document) : QState :=
  updateColl st name (fun c => { c with points := c.points ++ docs })

/-- Result of a (non-failing) `add_document` call: the backend state, the
handle cache, and whether the empty-input warning was emitted. -/
structure IngestResult where
  state : QState
  cache : TTLCache
  warned : Bool
deriving DecidableEq, Repr

/-- `Qdrant.add_document`: ensure the collection, enrich each chunk's
metadata, and either warn-and-skip on an empty document list or upsert the
batch through the (cached) vector store handle. -/
def addDocument (st : QState) (cache : TTLCache) (now : Nat)
    (transientFail createFail : Bool)
    (textChunks : List Document) (collectionName filePath : String) :
    Except QErr IngestResult :=
  match ensureCollection st collectionName transientFail createFail with
  | .error e => .error e
  | .ok st1 =>
    let documents := textChunks.map (fun c => enrichChunk c filePath collectionName)
    if documents.isEmpty then
      .ok { state := st1, cache := cache, warned := true }
    else
      let vc := getVectorStore cache now collectionName
      .ok { state := upsertPoints st1 collectionName documents
            cache := vc.2
            warned := false }

/-- `vector_store.similarity_search(query, k, filter)`: the backend ranks the
points matching the filter (the hybrid dense/sparse fusion is abstracted as
the oracle `rank`) and returns the best `k`. -/
def similaritySearch (points : List Document)
    (rank : String → List Document → List Document)
    (query : String) (k : Nat) (f : QFilter) : List Document :=
  (rank query (points.filter (fun p => evalFilter f p))).take k

/-- `Qdrant.search`: default the limit to the configured search limit, obtain
the (cached) store handle, run the filtered hybrid similarity search and
project the page contents. -/
def search (st : QState) (cache : TTLCache) (now : Nat)
    (rank : String → List Document → List Document)
    (searchLimit : Nat) (query : String) (collectionName : String)
    (documents : List String) (limit : Option Nat) :
    List String × TTLCache :=
  let k := limit.getD searchLimit
  let vc := getVectorStore cache now collectionName
  let results := similaritySearch (collPoints st collectionName) rank query k
    (searchFilter documents)
  (results.map (fun hit => hit.pageContent), vc.2)

/-- The state after appending a freshly created (fixed-schema, empty)
collection, as produced by a successful `create_collection`. -/
def freshCollectionState (st : QState) (name : String) : QState :=
  { collections := st.collections ++ [(name, { config := fixedConfig, points := [] })] }

/-! ## Concrete fixtures used by witnesses -/

/-- A concrete chunk carrying conflicting `source`/`user_id` keys. -/
def wChunk : Document :=
  { pageContent := "hello"
    metadata := [("source", "old"), ("user_id", "them"), ("k", "v")] }

/-- A stored point originating from file `a.txt`. -/
def wPointA : Document :=
  { pageContent := "text from A"
    metadata := [("source", "a.txt"), ("user_id", "t")] }

/-- A stored point originating from file `b.txt`. -/
def wPointB : Document :=
  { pageContent := "text from B"
    metadata := [("source", "b.txt"), ("user_id", "t")] }

/-- A tenant collection holding points from both `a.txt` and `b.txt`. -/
def wStAB : QState :=
  { collections := [("t", { config := fixedConfig, points := [wPointA, wPointB] })] }

/-- A tenant collection holding only the point from `b.txt`. -/
def wStB : QState :=
  { collections := [("t", { config := fixedConfig, points := [wPointB] })] }

/-- A backend with one empty tenant collection. -/
def wStT : QState :=
  { collections := [("t", { config := fixedConfig, points := [] })] }

/-! ## Helper lemmas -/

theorem metaGet_cons_of_pos (x : String × String) (l : Meta) (k : String)
    (h : x.1 = k) : metaGet (x :: l) k = some x.2 := by
  unfold metaGet
  rw [List.find?_cons_of_pos _ (by simpa using h)]
  rfl

theorem metaGet_cons_of_neg (x : String × String) (l : Meta) (k : String)
    (h : ¬ x.1 = k) : metaGet (x :: l) k = metaGet l k := by
  unfold metaGet
  rw [List.find?_cons_of_neg _ (by simpa using h)]

theorem metaGet_map_set_self (m : Meta) (k v : String) :
    metaGet (m.map (fun p => if p.1 = k then (k, v) else p)) k
      = if m.any (fun p => p.1 = k) then some v else none := by
  induction m with
  | nil => rfl
  | cons hd tl ih =>
    by_cases h : hd.1 = k
    · simp only [List.map_cons, if_pos h]
      rw [metaGet_cons_of_pos _ _ _ rfl]
      simp [List.any_cons, h]
    · simp only [List.map_cons, if_neg h]
      rw [metaGet_cons_of_neg _ _ _ h]
      have hany : ((hd :: tl).any fun p => p.1 = k) = (tl.any fun p => p.1 = k) := by
        simp [List.any_cons, h]
      rw [hany]
      exact ih

theorem metaGet_map_set_ne (m : Meta) (k v k' : String) (h : k' ≠ k) :
    metaGet (m.map (fun p => if p.1 = k then (k, v) else p)) k' = metaGet m k' := by
  induction m with
  | nil => rfl
  | cons hd tl ih =>
    by_cases hk : hd.1 = k
    · have hne : ¬ ((k, v).1 = k') := fun hc => h hc.symm
      have hne' : ¬ (hd.1 = k') := fun hc => h (hc ▸ hk)
      simp only [List.map_cons, if_pos hk]
      rw [metaGet_cons_of_neg _ _ _ hne, metaGet_cons_of_neg _ _ _ hne']
      exact ih
    · by_cases hk' : hd.1 = k'
      · simp only [List.map_cons, if_neg hk]
        rw [metaGet_cons_of_pos _ _ _ hk', metaGet_cons_of_pos _ _ _ hk']
      · simp only [List.map_cons, if_neg hk]
        rw [metaGet_cons_of_neg _ _ _ hk', metaGet_cons_of_neg _ _ _ hk']
        exact ih

theorem metaGet_set_self (m : Meta) (k v : String) :
    metaGet (metaSet m k v) k = some v := by
  unfold metaSet
  by_cases h : m.any (fun p => p.1 = k)
  · rw [if_pos h, metaGet_map_set_self, if_pos h]
  · rw [if_neg h]
    have hnone : m.find? (fun p => p.1 = k) = none := by
      rw [List.find?_eq_none]
      intro x hx hpx
      exact h (List.any_eq_true.mpr ⟨x, hx, hpx⟩)
    simp [metaGet, List.find?_append, hnone, List.find?]

theorem metaGet_set_ne (m : Meta) (k v k' : String) (h : k' ≠ k) :
    metaGet (metaSet m k v) k' = metaGet m k' := by
  unfold metaSet
  by_cases hm : m.any (fun p => p.1 = k)
  · rw [if_pos hm, metaGet_map_set_ne m k v k' h]
  · rw [if_neg hm]
    have hne : ¬ ((k, v).1 = k') := fun hc => h hc.symm
    unfold metaGet
    rw [List.find?_append]
    have h1 : ((k, v) :: ([] : Meta)).find? (fun p => p.1 = k') = none := by
      rw [List.find?_cons_of_neg _ (by simpa using hne)]
      rfl
    rw [h1, Option.or_none]

theorem getColl_updateColl (st : QState) (n : String) (g : Collection → Collection)
    (name : String) :
    (updateColl st n g).getColl name
      = if name = n then (st.getColl n).map g else st.getColl name := by
  unfold updateColl QState.getColl
  simp only
  induction st.collections with
  | nil => by_cases h : name = n <;> simp [h]
  | cons hd tl ih =>
    by_cases hn : hd.1 = n
    · by_cases hname : hd.1 = name
      · have heq : name = n := hname ▸ hn
        simp only [List.map_cons, if_pos hn, if_pos heq]
        rw [List.find?_cons_of_pos _ (by simpa using hname),
          List.find?_cons_of_pos _ (by simpa using hn)]
        rfl
      · have hne : ¬ ((hd.1, g hd.2).1 = name) := by simpa using hname
        have hname' : ¬ (name = n) := fun hc => hname (by rw [hn, ← hc])
        simp only [List.map_cons, if_pos hn, if_neg hname']
        rw [List.find?_cons_of_neg _ (by simpa using hne),
          List.find?_cons_of_neg _ (by simpa using hname)]
        rw [if_neg hname'] at ih
        exact ih
    · by_cases hname : hd.1 = name
      · have hname' : ¬ (name = n) := fun hc => hn (hc ▸ hname)
        simp only [List.map_cons, if_neg hn, if_neg hname']
        rw [List.find?_cons_of_pos _ (by simpa using hname),
          List.find?_cons_of_pos _ (by simpa using hname)]
      · simp only [List.map_cons, if_neg hn]
        rw [List.find?_cons_of_neg _ (by simpa using hname)]
        by_cases hq : name = n
        · rw [if_pos hq] at ih ⊢
          rw [List.find?_cons_of_neg _ (by simpa using hn)]
          exact ih
        · rw [if_neg hq] at ih ⊢
          rw [List.find?_cons_of_neg _ (by simpa using hname)]
          exact ih

theorem updateColl_eq_self (st : QState) (n : String) (g : Collection → Collection)
    (h : ∀ pr ∈ st.collections, pr.1 = n → g pr.2 = pr.2) :
    updateColl st n g = st := by
  unfold updateColl
  cases st with
  | mk colls =>
    simp only [QState.mk.injEq]
    have := List.map_congr_left (l := colls)
      (f := fun pr => if pr.1 = n then (pr.1, g pr.2) else pr) (g := id)
      (fun pr hpr => by
        by_cases hn : pr.1 = n
        · simp only [if_pos hn, id_eq]
          have := h pr hpr hn
          cases pr with
          | mk a b => simp_all
        · simp [hn])
    simpa using this

theorem getColl_append_new (st : QState) (n : String) (c : Collection)
    (h : st.getColl n = none) :
    QState.getColl { collections := st.collections ++ [(n, c)] } n = some c := by
  unfold QState.getColl at *
  have hf : st.collections.find? (fun p => p.1 = n) = none := by
    cases hfind : st.collections.find? (fun p => p.1 = n) with
    | none => rfl
    | some x => rw [hfind] at h; simp at h
  simp [List.find?_append, hf, List.find?]

theorem ensure_ok_getColl_isSome (st st1 : QState) (n : String) (cf : Bool)
    (h : ensureCollection st n false cf = .ok st1) :
    ∃ c, st1.getColl n = some c := by
  unfold ensureCollection getCollection at h
  simp only [Bool.false_eq_true, if_false] at h
  cases hg : st.getColl n with
  | some c =>
    rw [hg] at h
    simp only [Except.ok.injEq] at h
    exact ⟨c, h ▸ hg⟩
  | none =>
    rw [hg] at h
    unfold createCollection at h
    by_cases hcf : cf = true ∨ (st.getColl n).isSome = true
    · rw [if_pos hcf] at h; exact absurd h (by simp)
    · rw [if_neg hcf] at h
      simp only [Except.ok.injEq] at h
      exact ⟨_, h ▸ getColl_append_new st n _ hg⟩

/-! ## Claim theorems -/

/-- C2: for every chunk ingested by `add_document`, whatever its pre-existing
metadata, the stored point's metadata has `source` = basename of the given
file path and `user_id` = the tenant id (collection name); every other
pre-existing key is preserved, and the engine-injected values win on a key
conflict (the `source`/`user_id` results hold regardless of the chunk's own
bindings); the enriched chunk is indeed among the stored points after a
successful ingest. -/
theorem ingest_metadata_injection (chunk : Document) (chunks : List Document)
    (st : QState) (cache : TTLCache) (now : Nat) (collectionName filePath : String) :
    metaGet (enrichChunk chunk filePath collectionName).metadata "source"
      = some (baseName filePath)
    ∧ metaGet (enrichChunk chunk filePath collectionName).metadata "user_id"
      = some collectionName
    ∧ (∀ k, k ≠ "source" → k ≠ "user_id" →
        metaGet (enrichChunk chunk filePath collectionName).metadata k
          = metaGet chunk.metadata k)
    ∧ (∀ r, addDocument st cache now false false (chunk :: chunks) collectionName filePath
          = .ok r →
        enrichChunk chunk filePath collectionName ∈ collPoints r.state collectionName) := by
  refine ⟨?_, ?_, ?_, ?_⟩
  · show metaGet (injectMetadata chunk.metadata filePath collectionName) "source" = _
    unfold injectMetadata
    rw [metaGet_set_ne _ _ _ _ (by decide), metaGet_set_self]
  · show metaGet (injectMetadata chunk.metadata filePath collectionName) "user_id" = _
    unfold injectMetadata
    rw [metaGet_set_self]
  · intro k hk1 hk2
    show metaGet (injectMetadata chunk.metadata filePath collectionName) k = _
    unfold injectMetadata
    rw [metaGet_set_ne _ _ _ _ hk2, metaGet_set_ne _ _ _ _ hk1]
  · intro r hr
    unfold addDocument at hr
    cases hens : ensureCollection st collectionName false false with
    | error e => rw [hens] at hr; exact absurd hr (by simp)
    | ok st1 =>
      rw [hens] at hr
      simp only [List.map_cons, List.isEmpty_cons, Bool.false_eq_true, if_false,
        Except.ok.injEq] at hr
      obtain ⟨c, hc⟩ := ensure_ok_getColl_isSome st st1 collectionName false hens
      have hstate : r.state
          = upsertPoints st1 collectionName
              (enrichChunk chunk filePath collectionName
                :: chunks.map (fun ch => enrichChunk ch filePath collectionName)) := by
        rw [← hr]
      rw [hstate]
      unfold collPoints upsertPoints
      rw [getColl_updateColl]
      simp only [if_pos rfl, hc, Option.map_some, Option.getD_some]
      exact List.mem_append_right _ (List.mem_cons_self _ _)

/-- C2 witness: the theorem applied to `wChunk`, a concrete path and tenant,
and a concrete one-chunk ingest into the empty backend. -/
theorem ingest_metadata_injection_witness :
    metaGet (enrichChunk wChunk "docs/f.txt" "tenant1").metadata "source"
      = some (baseName "docs/f.txt")
    ∧ metaGet (enrichChunk wChunk "docs/f.txt" "tenant1").metadata "user_id"
      = some "tenant1"
    ∧ metaGet (enrichChunk wChunk "docs/f.txt" "tenant1").metadata "k"
      = metaGet wChunk.metadata "k" := by
  have h := ingest_metadata_injection wChunk
    [] { collections := [] } initCache 0 "tenant1" "docs/f.txt"
  exact ⟨h.1, h.2.1, h.2.2.1 "k" (by decide) (by decide)⟩

/-- C3: `_ensure_collection` is idempotent and never destructive: starting
from a state without the tenant's collection, the first (fault-free) call
creates it with the fixed schema, a second call is a no-op returning the
state unchanged, the resulting state holds exactly one collection under that
name, and whenever the metadata lookup succeeds the call performs no
creation and leaves the state untouched. -/
theorem ensure_collection_idempotent (st : QState) (name : String)
    (hnew : st.getColl name = none) :
    ∃ st1, ensureCollection st name false false = .ok st1
      ∧ ensureCollection st1 name false false = .ok st1
      ∧ (st1.collections.filter (fun pr => pr.1 = name)).length = 1
      ∧ st1.getColl name = some { config := fixedConfig, points := [] }
      ∧ (∀ st' c, QState.getColl st' name = some c →
          ensureCollection st' name false false = .ok st') := by
  refine ⟨{ collections :=
      st.collections ++ [(name, { config := fixedConfig, points := [] })] },
    ?_, ?_, ?_, ?_, ?_⟩
  · unfold ensureCollection getCollection createCollection
    simp [hnew]
  · have hsome := getColl_append_new st name { config := fixedConfig, points := [] } hnew
    unfold ensureCollection getCollection
    simp [hsome]
  · simp only [List.filter_append]
    have hanti : st.collections.filter (fun pr => pr.1 = name) = [] := by
      rw [List.filter_eq_nil_iff]
      intro x hx hpx
      have : st.collections.find? (fun p => p.1 = name) = none := by
        cases hfind : st.collections.find? (fun p => p.1 = name) with
        | none => rfl
        | some y =>
          unfold QState.getColl at hnew
          rw [hfind] at hnew
          exact absurd hnew (by simp)
      have := List.find?_eq_none.mp this x hx
      exact this hpx
    rw [hanti]
    simp
  · exact getColl_append_new st name { config := fixedConfig, points := [] } hnew
  · intro st' c h
    unfold ensureCollection getCollection
    simp [h]

/-- C3 witness: the theorem applied to the empty backend and tenant "t". -/
theorem ensure_collection_idempotent_witness :
    ∃ st1, ensureCollection { collections := [] } "t" false false = .ok st1
      ∧ ensureCollection st1 "t" false false = .ok st1
      ∧ (st1.collections.filter (fun pr => pr.1 = "t")).length = 1
      ∧ st1.getColl "t" = some { config := fixedConfig, points := [] }
      ∧ (∀ st' c, QState.getColl st' "t" = some c →
          ensureCollection st' "t" false false = .ok st') :=
  ensure_collection_idempotent { collections := [] } "t" rfl

/-- C7: when `_ensure_collection` creates a collection (there is no
collection under the name, whether the lookup reported not-found or a
transient failure), the created collection carries exactly the fixed schema:
one dense space "dense" of size 384 with cosine distance, one sparse space
"sparse", and on-disk payload storage. -/
theorem ensure_creates_fixed_schema (st : QState) (name : String) (tf : Bool)
    (hnew : st.getColl name = none) :
    ∃ st', ensureCollection st name tf false = .ok st'
      ∧ st'.getColl name = some { config := fixedConfig, points := [] }
      ∧ fixedConfig.vectorsConfig
          = [("dense", { size := 384, distance := Distance.cosine })]
      ∧ fixedConfig.sparseVectorsConfig
          = [("sparse", { index := { onDisk := false } })]
      ∧ fixedConfig.onDiskPayload = true := by
  refine ⟨{ collections :=
      st.collections ++ [(name, { config := fixedConfig, points := [] })] },
    ?_, getColl_append_new st name { config := fixedConfig, points := [] } hnew,
    rfl, rfl, rfl⟩
  cases tf with
  | false =>
    unfold ensureCollection getCollection createCollection
    simp [hnew]
  | true =>
    unfold ensureCollection getCollection createCollection
    simp [hnew]

/-- C7 witness: the theorem applied to the empty backend, tenant "t", with
the creation triggered by a transient lookup failure. -/
theorem ensure_creates_fixed_schema_witness :
    ∃ st', ensureCollection { collections := [] } "t" true false = .ok st'
      ∧ st'.getColl "t" = some { config := fixedConfig, points := [] }
      ∧ fixedConfig.vectorsConfig
          = [("dense", { size := 384, distance := Distance.cosine })]
      ∧ fixedConfig.sparseVectorsConfig
          = [("sparse", { index := { onDisk := false } })]
      ∧ fixedConfig.onDiskPayload = true :=
  ensure_creates_fixed_schema { collections := [] } "t" true rfl

/-- C8: every failure of the collection lookup in `_ensure_collection` — a
transient backend error just as much as not-found — triggers a creation
attempt; no lookup failure ever propagates to the caller, and the only error
`_ensure_collection` can return is a creation failure. -/
theorem ensure_swallows_lookup_failures (st : QState) (name : String) (cf : Bool) :
    ensureCollection st name true cf = createCollection st name cf
    ∧ (∀ tf e, getCollection st name tf = .error e →
        ensureCollection st name tf cf = createCollection st name cf)
    ∧ (∀ tf e, ensureCollection st name tf cf = .error e → e = QErr.createFailed) := by
  refine ⟨rfl, ?_, ?_⟩
  · intro tf e h
    unfold ensureCollection
    rw [h]
  · intro tf e h
    unfold ensureCollection at h
    cases hg : getCollection st name tf with
    | ok c => rw [hg] at h; exact absurd h (by simp)
    | error e' =>
      rw [hg] at h
      unfold createCollection at h
      by_cases hc : cf = true ∨ (st.getColl name).isSome = true
      · rw [if_pos hc] at h
        simpa using h.symm
      · rw [if_neg hc] at h
        exact absurd h (by simp)

/-- C8 witness: the theorem applied at a concrete state where the lookup
fails transiently and creation is made to fail, so the propagated error is
observed to be the creation error. -/
theorem ensure_swallows_lookup_failures_witness :
    ensureCollection { collections := [] } "t" true true
      = createCollection { collections := [] } "t" true
    ∧ QErr.createFailed = QErr.createFailed :=
  ⟨(ensure_swallows_lookup_failures { collections := [] } "t" true).1,
   (ensure_swallows_lookup_failures { collections := [] } "t" true).2.2 true
     QErr.createFailed rfl⟩

/-- The delete filter matches a point exactly when its `metadata.source`
equals the document name. -/
theorem evalFilter_deleteFilter (p : Document) (docName : String) :
    evalFilter (deleteFilter docName) p = true
      ↔ metaGet p.metadata "source" = some docName := by
  have hpf : pointField p "metadata.source" = metaGet p.metadata "source" := rfl
  unfold evalFilter deleteFilter
  simp only [List.all_cons, List.all_nil, Bool.and_true]
  unfold evalFieldCondition
  rw [hpf]
  cases hm : metaGet p.metadata "source" with
  | none => simp
  | some v => unfold evalMatch; simp

/-- The search filter matches a point exactly when its `metadata.source` is
one of the allowed documents. -/
theorem evalFilter_searchFilter (p : Document) (documents : List String) :
    evalFilter (searchFilter documents) p = true
      ↔ ∃ d ∈ documents, metaGet p.metadata "source" = some d := by
  have hpf : pointField p "metadata.source" = metaGet p.metadata "source" := rfl
  unfold evalFilter searchFilter
  simp only [List.all_cons, List.all_nil, Bool.and_true]
  unfold evalFieldCondition
  rw [hpf]
  cases hm : metaGet p.metadata "source" with
  | none => simp
  | some v =>
    unfold evalMatch
    simp only [List.contains_iff_exists_mem_beq, beq_iff_eq, Option.some.injEq]

/-- C9: ingesting an empty chunk sequence (with a healthy backend) succeeds,
emits the warning, leaves the handle cache untouched, and writes zero
points: every collection holds exactly the points it held before. -/
theorem empty_ingest_warns_and_skips (st : QState) (cache : TTLCache) (now : Nat)
    (collectionName filePath : String) :
    ∃ r, addDocument st cache now false false [] collectionName filePath = .ok r
      ∧ r.warned = true
      ∧ r.cache = cache
      ∧ (∀ name, collPoints r.state name = collPoints st name) := by
  cases hg : st.getColl collectionName with
  | some c =>
    have hens : ensureCollection st collectionName false false = .ok st := by
      unfold ensureCollection getCollection
      simp [hg]
    refine ⟨⟨st, cache, true⟩, ?_, rfl, rfl, fun name => rfl⟩
    unfold addDocument
    rw [hens]
    rfl
  | none =>
    have hens : ensureCollection st collectionName false false
        = .ok (freshCollectionState st collectionName) := by
      unfold ensureCollection getCollection createCollection freshCollectionState
      simp [hg]
    refine ⟨⟨freshCollectionState st collectionName, cache, true⟩, ?_, rfl, rfl, ?_⟩
    · unfold addDocument
      rw [hens]
      rfl
    · intro name
      unfold freshCollectionState collPoints QState.getColl
      simp only [List.find?_append]
      by_cases hn : collectionName = name
      · have hf : st.collections.find? (fun p => p.1 = name) = none := by
          cases hfind : st.collections.find? (fun p => p.1 = name) with
          | none => rfl
          | some y =>
            unfold QState.getColl at hg
            rw [hn] at hg
            rw [hfind] at hg
            exact absurd hg (by simp)
        rw [hf]
        rw [List.find?_cons_of_pos _ (by simpa using hn)]
        rfl
      · rw [List.find?_cons_of_neg _ (by simpa using hn)]
        simp only [List.find?_nil, Option.or_none]

/-- C9 witness: the theorem applied to a concrete one-collection backend. -/
theorem empty_ingest_warns_and_skips_witness :
    ∃ r, addDocument wStT initCache 7 false false [] "t" "docs/f.txt" = .ok r
      ∧ r.warned = true
      ∧ r.cache = initCache
      ∧ (∀ name, collPoints r.state name = collPoints wStT name) :=
  empty_ingest_warns_and_skips wStT initCache 7 "t" "docs/f.txt"

/-- C10: `add_document` runs the ensure-collection step before the
empty-input check, so ingesting an empty chunk sequence for a tenant with no
collection still creates that tenant's collection (with the fixed schema and
zero points) even though nothing is upserted. -/
theorem empty_ingest_still_creates_collection (st : QState) (cache : TTLCache)
    (now : Nat) (collectionName filePath : String)
    (hnew : st.getColl collectionName = none) :
    ∃ r, addDocument st cache now false false [] collectionName filePath = .ok r
      ∧ r.warned = true
      ∧ r.state.getColl collectionName = some { config := fixedConfig, points := [] } := by
  have hens : ensureCollection st collectionName false false
      = .ok (freshCollectionState st collectionName) := by
    unfold ensureCollection getCollection createCollection freshCollectionState
    simp [hnew]
  refine ⟨⟨freshCollectionState st collectionName, cache, true⟩, ?_, rfl,
    getColl_append_new st collectionName { config := fixedConfig, points := [] } hnew⟩
  unfold addDocument
  rw [hens]
  rfl

/-- C10 witness: the theorem applied to the empty backend. -/
theorem empty_ingest_still_creates_collection_witness :
    ∃ r, addDocument { collections := [] } initCache 0 false false [] "t" "f.txt" = .ok r
      ∧ r.warned = true
      ∧ r.state.getColl "t" = some { config := fixedConfig, points := [] } :=
  empty_ingest_still_creates_collection { collections := [] } initCache 0 "t" "f.txt" rfl

/-- C5: a search returns at most `limit` passage texts (even when more
points match), and an omitted limit behaves exactly as the configured
system-wide search limit. -/
theorem search_result_cap (st : QState) (cache : TTLCache) (now : Nat)
    (rank : String → List Document → List Document) (searchLimit : Nat)
    (query collectionName : String) (documents : List String) (limit : Option Nat) :
    (search st cache now rank searchLimit query collectionName documents limit).1.length
      ≤ limit.getD searchLimit
    ∧ search st cache now rank searchLimit query collectionName documents none
      = search st cache now rank searchLimit query collectionName documents
          (some searchLimit) := by
  constructor
  · unfold search similaritySearch
    simp only [List.length_map]
    exact List.length_take_le _ _
  · rfl

/-- C6: `delete_document` removes from the tenant's collection exactly the
points whose `metadata.source` equals the filename: a point remains stored
iff it was stored and its source differs; collections under other names are
untouched; and when no stored point matches, the whole backend state is
unchanged (a trivial no-op). -/
theorem delete_document_scoped (st : QState) (docName collectionName : String) :
    (∀ p, p ∈ collPoints (deleteDocument st docName collectionName) collectionName ↔
        p ∈ collPoints st collectionName
          ∧ ¬ metaGet p.metadata "source" = some docName)
    ∧ (∀ name, name ≠ collectionName →
        (deleteDocument st docName collectionName).getColl name = st.getColl name)
    ∧ ((∀ pr ∈ st.collections, pr.1 = collectionName →
          ∀ p ∈ pr.2.points, ¬ metaGet p.metadata "source" = some docName) →
        deleteDocument st docName collectionName = st) := by
  refine ⟨?_, ?_, ?_⟩
  · intro p
    unfold deleteDocument deletePoints collPoints
    rw [getColl_updateColl, if_pos rfl]
    cases hg : st.getColl collectionName with
    | none => simp
    | some c =>
      simp only [Option.map_some', Option.getD_some, List.mem_filter,
        decide_eq_true_eq]
      constructor
      · rintro ⟨hp, hev⟩
        exact ⟨hp, fun hsrc => hev ((evalFilter_deleteFilter p docName).mpr hsrc)⟩
      · rintro ⟨hp, hsrc⟩
        exact ⟨hp, fun hev => hsrc ((evalFilter_deleteFilter p docName).mp hev)⟩
  · intro name hne
    unfold deleteDocument deletePoints
    rw [getColl_updateColl]
    rw [if_neg hne]
  · intro h
    unfold deleteDocument deletePoints
    apply updateColl_eq_self
    intro pr hpr hprn
    have hfil : pr.2.points.filter
        (fun pt => ¬ evalFilter (deleteFilter docName) pt) = pr.2.points := by
      rw [List.filter_eq_self]
      intro p hp
      have := h pr hpr hprn p hp
      simp only [decide_eq_true_eq]
      intro hev
      exact this ((evalFilter_deleteFilter p docName).mp hev)
    rw [hfil]

/-- C6 witness: on the two-document tenant, deleting `a.txt` keeps the point
from `b.txt`; on the tenant without matching points the deletion is a
verbatim no-op. -/
theorem delete_document_scoped_witness :
    (wPointB ∈ collPoints (deleteDocument wStAB "a.txt" "t") "t" ↔
        wPointB ∈ collPoints wStAB "t"
          ∧ ¬ metaGet wPointB.metadata "source" = some "a.txt")
    ∧ deleteDocument wStB "a.txt" "t" = wStB :=
  ⟨(delete_document_scoped wStAB "a.txt" "t").1 wPointB,
   (delete_document_scoped wStB "a.txt" "t").2.2 (by decide)⟩

/-- The passage texts returned by `search`, unfolded. -/
theorem search_fst (st : QState) (cache : TTLCache) (now : Nat)
    (rank : String → List Document → List Document) (searchLimit : Nat)
    (query collectionName : String) (documents : List String) (limit : Option Nat) :
    (search st cache now rank searchLimit query collectionName documents limit).1
      = ((rank query ((collPoints st collectionName).filter
            (fun p => evalFilter (searchFilter documents) p))).take
          (limit.getD searchLimit)).map (fun hit => hit.pageContent) := rfl

/-- C1: every passage text returned by `search` is the text of a stored point
of the tenant's collection whose `metadata.source` is in the allow-list (so a
point of a non-allowed document is never returned, for any query and any
backend ranking that draws from its candidate set); and with an empty
allow-list the filter matches nothing, so the result is the empty
sequence. -/
theorem search_respects_allowlist (st : QState) (cache : TTLCache) (now : Nat)
    (rank : String → List Document → List Document)
    (hrank : ∀ q ps, ∀ p ∈ rank q ps, p ∈ ps)
    (searchLimit : Nat) (query collectionName : String)
    (documents : List String) (limit : Option Nat) :
    (∀ t ∈ (search st cache now rank searchLimit query collectionName documents limit).1,
        ∃ p, p ∈ collPoints st collectionName ∧ p.pageContent = t
          ∧ ∃ d ∈ documents, metaGet p.metadata "source" = some d)
    ∧ (documents = [] →
        (search st cache now rank searchLimit query collectionName documents limit).1
          = []) := by
  constructor
  · intro t ht
    rw [search_fst] at ht
    simp only [List.mem_map] at ht
    obtain ⟨hit, hmem, hpc⟩ := ht
    have h1 : hit ∈ rank query ((collPoints st collectionName).filter
        (fun p => evalFilter (searchFilter documents) p)) :=
      List.take_subset _ _ hmem
    have h2 := hrank _ _ _ h1
    rw [List.mem_filter] at h2
    exact ⟨hit, h2.1, hpc, (evalFilter_searchFilter hit documents).mp h2.2⟩
  · intro hdoc
    subst hdoc
    rw [search_fst]
    have hfil : (collPoints st collectionName).filter
        (fun p => evalFilter (searchFilter []) p) = [] := by
      rw [List.filter_eq_nil_iff]
      intro p hp hev
      obtain ⟨d, hd, _⟩ := (evalFilter_searchFilter p []).mp hev
      exact absurd hd (List.not_mem_nil d)
    rw [hfil]
    have hrank0 : rank query [] = [] := by
      rw [List.eq_nil_iff_forall_not_mem]
      intro p hp
      exact absurd (hrank query [] p hp) (List.not_mem_nil p)
    rw [hrank0]
    simp

/-- C1 witness: the theorem applied to the two-document tenant with the
identity ranking, once with allow-list `[a.txt]` and once with the empty
allow-list. -/
theorem search_respects_allowlist_witness :
    (∀ t ∈ (search wStAB initCache 0 (fun _ ps => ps) 5 "q" "t" ["a.txt"] none).1,
        ∃ p, p ∈ collPoints wStAB "t" ∧ p.pageContent = t
          ∧ ∃ d ∈ ["a.txt"], metaGet p.metadata "source" = some d)
    ∧ (search wStAB initCache 0 (fun _ ps => ps) 5 "q" "t" [] none).1 = [] :=
  ⟨(search_respects_allowlist wStAB initCache 0 (fun _ ps => ps)
      (fun _ _ _ h => h) 5 "q" "t" ["a.txt"] none).1,
   (search_respects_allowlist wStAB initCache 0 (fun _ ps => ps)
      (fun _ _ _ h => h) 5 "q" "t" [] none).2 rfl⟩

/-- When a key is found in a list of cache entries, dropping every entry with
that key shortens the list by at least one. -/
theorem length_filter_key_lt_of_find? (l : List CacheEntry) (k : String)
    (e : CacheEntry) (h : l.find? (fun x => x.key = k) = some e) :
    (l.filter (fun x => x.key ≠ k)).length + 1 ≤ l.length := by
  induction l with
  | nil => exact absurd h (by simp)
  | cons hd tl ih =>
    by_cases hk : hd.key = k
    · rw [List.filter_cons_of_neg (by simp [hk])]
      exact Nat.succ_le_succ (List.length_filter_le _ tl)
    · rw [List.find?_cons_of_neg _ (by simpa using hk)] at h
      rw [List.filter_cons_of_pos (by simpa using hk)]
      exact Nat.succ_le_succ (ih h)

/-- A cache-hit touch never grows the cache. -/
theorem touch_length_le (c : TTLCache) (k : String) :
    (c.touch k).entries.length ≤ c.entries.length := by
  unfold TTLCache.touch
  cases hf : c.entries.find? (fun e => e.key = k) with
  | none => exact Nat.le_refl _
  | some e => exact length_filter_key_lt_of_find? c.entries k e hf

/-- An insert into a 100-capacity cache leaves at most 100 entries. -/
theorem insert_length_le (c : TTLCache) (now : Nat) (k : String)
    (v : VectorStoreHandle) (hm : c.maxsize = 100) :
    (c.insert now k v).entries.length ≤ 100 := by
  show ({ key := k, value := v, insertTime := now }
      :: ((c.expire now).entries.take (c.maxsize - 1))).length ≤ 100
  rw [List.length_cons, hm]
  have h1 := List.length_take_le (100 - 1) ((c.expire now).entries)
  omega

/-- A freshly inserted handle is immediately retrievable. -/
theorem lookupLive_insert_self (c : TTLCache) (now : Nat) (k : String)
    (v : VectorStoreHandle) :
    (c.insert now k v).lookupLive now k = some v := by
  simp only [TTLCache.insert, TTLCache.expire, TTLCache.lookupLive]
  rw [List.find?_cons_of_pos _ (by simp)]
  simp only [CacheEntry.expiredAt]
  rw [if_neg (by simp only [decide_eq_true_eq]; omega)]

/-- C4: the store-handle cache behaves as get-or-create with LRU + TTL
eviction at capacity 100 and TTL 3600 s: a present, unexpired entry is
returned as-is; a miss constructs the hybrid-mode handle bound to the two
named vector spaces and both embedding models and inserts it (immediately
retrievable); the cache never exceeds 100 entries; an entry older than the
TTL is no longer returned; and on overflow (full, nothing expired, miss) the
evicted entry is exactly the least-recently-used one. -/
theorem cache_get_or_create (c : TTLCache) (now : Nat) (name : String)
    (hm : c.maxsize = 100) (ht : c.ttl = 3600) (hlen : c.entries.length ≤ 100) :
    ((getVectorStore c now name).2.entries.length ≤ 100)
    ∧ (∀ v, c.lookupLive now name = some v → (getVectorStore c now name).1 = v)
    ∧ (c.lookupLive now name = none →
        (getVectorStore c now name).1 = mkVectorStore name
        ∧ (mkVectorStore name).retrievalMode = RetrievalMode.hybrid
        ∧ (mkVectorStore name).vectorName = "dense"
        ∧ (mkVectorStore name).sparseVectorName = "sparse"
        ∧ (mkVectorStore name).embeddingModel = denseModelName
        ∧ (mkVectorStore name).sparseEmbeddingModel = sparseModelName
        ∧ (getVectorStore c now name).2.lookupLive now name = some (mkVectorStore name))
    ∧ (∀ e, c.entries.find? (fun x => x.key = name) = some e →
        e.insertTime + 3600 < now → c.lookupLive now name = none)
    ∧ (c.lookupLive now name = none →
        (∀ e ∈ c.entries, e.expiredAt c.ttl now = false) →
        c.entries.length = 100 →
        (getVectorStore c now name).2.entries
          = { key := name, value := mkVectorStore name, insertTime := now }
              :: c.entries.dropLast) := by
  refine ⟨?_, ?_, ?_, ?_, ?_⟩
  · cases hl : c.lookupLive now name with
    | some v =>
      unfold getVectorStore
      rw [hl]
      exact Nat.le_trans (touch_length_le c name) hlen
    | none =>
      unfold getVectorStore
      rw [hl]
      exact insert_length_le c now name (mkVectorStore name) hm
  · intro v hv
    unfold getVectorStore
    rw [hv]
  · intro hl
    unfold getVectorStore
    rw [hl]
    exact ⟨rfl, rfl, rfl, rfl, rfl, rfl,
      lookupLive_insert_self c now name (mkVectorStore name)⟩
  · intro e hf hexp
    rw [← ht] at hexp
    unfold TTLCache.lookupLive
    rw [hf]
    simp [CacheEntry.expiredAt, hexp]
  · intro hl hne hfull
    unfold getVectorStore
    rw [hl]
    simp only [TTLCache.insert, TTLCache.expire]
    have hfil : c.entries.filter (fun e => ¬ e.expiredAt c.ttl now) = c.entries := by
      rw [List.filter_eq_self]
      intro e he
      simp [hne e he]
    rw [hfil, hm, List.dropLast_eq_take, hfull]

/-- C4 witness: the theorem applied to the empty initial cache at time 0 and
tenant "t": the miss constructs and caches the hybrid handle within the
capacity bound. -/
theorem cache_get_or_create_witness :
    (getVectorStore initCache 0 "t").2.entries.length ≤ 100
    ∧ (getVectorStore initCache 0 "t").1 = mkVectorStore "t"
    ∧ (mkVectorStore "t").retrievalMode = RetrievalMode.hybrid
    ∧ (getVectorStore initCache 0 "t").2.lookupLive 0 "t"
        = some (mkVectorStore "t") := by
  have h := cache_get_or_create initCache 0 "t" rfl rfl (by decide)
  have hc := h.2.2.1 rfl
  exact ⟨h.1, hc.1, hc.2.1, hc.2.2.2.2.2.2⟩

end AskDocs
